import Mathlib

/-!
Verification of the bitcoin-backtest repository's SMA-crossover backtest
pipeline.  Prices are modelled as exact rationals; a pandas NaN cell is
modelled as `none : Option ℚ` (numpy comparisons with NaN are false).
-/

set_option maxRecDepth 4000

namespace SimpleBacktestNoPlot

/-- `data['price'].rolling(window=period).mean()` evaluated at row `i`
(source: `simple_backtest_no_plot.py`, `calculate_sma`).  With pandas's
default `min_periods = window`, the value is NaN (`none`) until a full
window of `period` prices `[i-period+1, i]` is available; the model
follows pandas's requirement `period ≥ 1`. -/
def smaAt (prices : List ℚ) (period i : ℕ) : Option ℚ :=
  if period ≤ i + 1 then
    some (((prices.take (i + 1)).drop (i + 1 - period)).sum / (period : ℚ))
  else none

/-- `calculate_sma`: the rolling-mean column aligned with the input rows. -/
def calculate_sma (prices : List ℚ) (period : ℕ) : List (Option ℚ) :=
  (List.range prices.length).map (smaAt prices period)

/-- numpy elementwise `>` on float columns: any comparison involving NaN
is `False`. -/
def nanGt : Option ℚ → Option ℚ → Bool
  | some a, some b => decide (b < a)
  | _, _ => false

/-- `df['Signal']` at row `i`: the column is initialised to `0` and rows
from `fast_period` on are overwritten with
`np.where(SMA_Fast > SMA_Slow, 1, 0)`
(source: `simple_backtest_no_plot.py`, `sma_crossover_strategy`). -/
def sigAt (prices : List ℚ) (fast slow i : ℕ) : ℤ :=
  if i < fast then 0
  else if nanGt (smaAt prices fast i) (smaAt prices slow i) then 1 else 0

/-- The `Signal` column. -/
def signalList (prices : List ℚ) (fast slow : ℕ) : List ℤ :=
  (List.range prices.length).map (sigAt prices fast slow)

/-- `df['Position'] = df['Signal'].diff()` at row `i`: NaN at row 0,
`Signal[i] - Signal[i-1]` afterwards. -/
def posAt (prices : List ℚ) (fast slow i : ℕ) : Option ℤ :=
  if i = 0 then none
  else some (sigAt prices fast slow i - sigAt prices fast slow (i - 1))

/-- The `Position` column. -/
def positionList (prices : List ℚ) (fast slow : ℕ) : List (Option ℤ) :=
  (List.range prices.length).map (posAt prices fast slow)

/-- Trade direction of a row of the `trades` log. -/
inductive Side
  | buy
  | sell
deriving DecidableEq

/-- One entry of the `trades` list appended by the simulation loop. -/
structure Trade where
  side : Side
  price : ℚ
  btc_amount : ℚ
  cash_remaining : ℚ
deriving DecidableEq

/-- The mutable state of the simulation loop of `sma_crossover_strategy`:
`cash`, `btc_held`, the `trades` log and the `portfolio_value` list. -/
structure SimState where
  cash : ℚ
  btc_held : ℚ
  trades : List Trade
  portfolio_value : List ℚ
deriving DecidableEq

/-- One iteration of the `for i, row in df.iterrows()` loop of
`sma_crossover_strategy`: buy all-in when `Position == 1 and cash > 0`,
else sell everything when `Position == -1 and btc_held > 0`, then append
`cash + btc_held * price` to `portfolio_value`.  No commission appears
anywhere in this loop. -/
def stepBar (s : SimState) (bar : ℚ × Option ℤ) : SimState :=
  let p := bar.1
  let s1 :=
    if bar.2 = some 1 ∧ 0 < s.cash then
      { s with cash := 0
               btc_held := s.btc_held + s.cash / p
               trades := s.trades ++ [⟨Side.buy, p, s.cash / p, 0⟩] }
    else if bar.2 = some (-1) ∧ 0 < s.btc_held then
      { s with cash := s.cash + s.btc_held * p
               btc_held := 0
               trades := s.trades ++ [⟨Side.sell, p, s.btc_held, s.cash + s.btc_held * p⟩] }
    else s
  { s1 with portfolio_value := s1.portfolio_value ++ [s1.cash + s1.btc_held * p] }

/-- The cash/holdings part of `stepBar` in isolation (the trade log and
the portfolio-value list never feed back into it). -/
def coreStep (c b : ℚ) (bar : ℚ × Option ℤ) : ℚ × ℚ :=
  if bar.2 = some 1 ∧ 0 < c then (0, b + c / bar.1)
  else if bar.2 = some (-1) ∧ 0 < b then (c + b * bar.1, 0)
  else (c, b)

/-- The portfolio values appended by the loop, starting from a given
cash/holdings state. -/
def valuesFrom (c b : ℚ) : List (ℚ × Option ℤ) → List ℚ
  | [] => []
  | bar :: rest =>
    let cb := coreStep c b bar
    (cb.1 + cb.2 * bar.1) :: valuesFrom cb.1 cb.2 rest

/-- The whole simulation loop of `sma_crossover_strategy` over the rows
`(price, Position)` of the dataframe. -/
def runSim (prices : List ℚ) (fast slow : ℕ) (initial_capital : ℚ) : SimState :=
  (prices.zip (positionList prices fast slow)).foldl stepBar
    ⟨initial_capital, 0, [], []⟩

/-- The dictionary returned by `sma_crossover_strategy`. -/
structure BacktestResults where
  final_value : ℚ
  total_return : ℚ
  buy_and_hold_return : ℚ
  num_trades : ℕ
deriving DecidableEq

/-- `sma_crossover_strategy`'s returned metrics:
`final_value = portfolio_value[-1]`,
`total_return = (final_value / initial_capital - 1) * 100`,
`buy_and_hold_return = (last price / first price - 1) * 100`,
`num_trades = len(trades)`.  (`portfolio_value[-1]` on an empty series
raises in Python; the model uses the default `0` there.) -/
def sma_crossover_strategy (prices : List ℚ) (fast slow : ℕ)
    (initial_capital : ℚ) : BacktestResults :=
  let st := runSim prices fast slow initial_capital
  let final_value := st.portfolio_value.getLastD 0
  { final_value := final_value
    total_return := (final_value / initial_capital - 1) * 100
    buy_and_hold_return := (prices.getLastD 0 / prices.getD 0 0 - 1) * 100
    num_trades := st.trades.length }

/-- Number of BUY rows of a trade log. -/
def numBuys (ts : List Trade) : ℕ :=
  ts.countP (fun t => decide (t.side = Side.buy))

/-- Number of SELL rows of a trade log. -/
def numSells (ts : List Trade) : ℕ :=
  ts.countP (fun t => decide (t.side = Side.sell))

end SimpleBacktestNoPlot

namespace Config

/-- `COMMISSION = 0.001` from `src/config.py` (0.1% commission), the only
commission rate configured anywhere in the repository. -/
def COMMISSION : ℚ := 1 / 1000

/-- `INITIAL_CASH = 10000.0` from `src/config.py`. -/
def INITIAL_CASH : ℚ := 10000

end Config

namespace RunBacktestWithSample

/-- `df['strategy_returns'] = df['signal'].shift(1) * df['returns']` at
row `i`, with `df['returns'] = df['close'].pct_change()`
(source: `run_backtest_with_sample.py`, `backtest_strategy`).  Row 0 is
NaN (both the shift and `pct_change` are NaN there). -/
def strategyReturnAt (closes : List ℚ) (sig : List ℤ) (i : ℕ) : Option ℚ :=
  if i = 0 then none
  else some ((sig.getD (i - 1) 0 : ℚ) * (closes.getD i 0 / closes.getD (i - 1) 0 - 1))

/-- The `strategy_returns` column. -/
def strategy_returns (closes : List ℚ) (sig : List ℤ) : List (Option ℚ) :=
  (List.range closes.length).map (strategyReturnAt closes sig)

/-- pandas `(1 + s).cumprod()` with its default `skipna=True`: NaN cells
stay NaN, the running product continues past them. -/
def cumprod1p : ℚ → List (Option ℚ) → List (Option ℚ)
  | _, [] => []
  | acc, none :: rest => none :: cumprod1p acc rest
  | acc, some r :: rest => some (acc * (1 + r)) :: cumprod1p (acc * (1 + r)) rest

/-- `df['equity'] = initial_capital * df['cumulative_returns']`. -/
def equity (closes : List ℚ) (sig : List ℤ) (initial_capital : ℚ) :
    List (Option ℚ) :=
  (cumprod1p 1 (strategy_returns closes sig)).map (Option.map (initial_capital * ·))

/-- `df['equity'].iloc[-1]` (NaN modelled as `none`). -/
def finalEquity (closes : List ℚ) (sig : List ℤ) (initial_capital : ℚ) :
    Option ℚ :=
  (equity closes sig initial_capital).getLastD none

/-- `total_return = df['equity'].iloc[-1] / initial_capital - 1`; a NaN
final equity propagates to a NaN total return. -/
def total_return (closes : List ℚ) (sig : List ℤ) (initial_capital : ℚ) :
    Option ℚ :=
  (finalEquity closes sig initial_capital).map (· / initial_capital - 1)

end RunBacktestWithSample

namespace PandasFrame

/-- A dataframe column; a NaN cell is `none`. -/
abbrev Col : Type := List (Option ℚ)

/-- A dataframe: an ordered association of column names to columns. -/
abbrev Frame : Type := List (String × Col)

/-- Reading a column, `df[name]` (missing column modelled as `[]`). -/
def getCol (f : Frame) (name : String) : Col :=
  (f.lookup name).getD []

/-- Column assignment `df[name] = col`: overwrite in place when the name
exists, append a new column otherwise. -/
def setCol : Frame → String → Col → Frame
  | [], name, col => [(name, col)]
  | (m, d) :: rest, name, col =>
    if m = name then (name, col) :: rest else (m, d) :: setCol rest name col

/-- `Series.rolling(window=period).mean()` at row `i` over a column that
may contain NaN: with `min_periods = window`, the result is NaN unless a
full window of `period` defined cells is available. -/
def smaAtO (xs : Col) (period i : ℕ) : Option ℚ :=
  let w := (List.take (i + 1) xs).drop (i + 1 - period)
  if period ≤ i + 1 ∧ w.all Option.isSome then
    some ((w.filterMap id).sum / (period : ℚ))
  else none

/-- The rolling-mean column. -/
def rollingMeanO (xs : Col) (period : ℕ) : Col :=
  (List.range (List.length xs)).map (smaAtO xs period)

/-- The `Signal` column written by the minute-level script: initialised
to `0`, rows from `fast` on overwritten with
`np.where(SMA_Fast > SMA_Slow, 1, 0)`. -/
def signalColO (fastC slowC : Col) (n fast : ℕ) : Col :=
  (List.range n).map fun i =>
    if i < fast then some 0
    else if SimpleBacktestNoPlot.nanGt (fastC.getD i none) (slowC.getD i none)
    then some 1 else some 0

/-- `Series.diff()`: NaN at row 0, `c[i] - c[i-1]` afterwards (NaN when
either operand is NaN). -/
def diffO (c : Col) : Col :=
  (List.range (List.length c)).map fun i =>
    if i = 0 then none
    else
      match c.getD i none, c.getD (i - 1) none with
      | some a, some b => some (a - b)
      | _, _ => none

end PandasFrame

namespace SimpleMinuteBacktest

open PandasFrame

/-- `simple_sma_strategy(data, fast_period, slow_period)` from
`simple_minute_backtest.py`.  The function assigns its four derived
columns (`SMA_Fast`, `SMA_Slow`, `Signal`, `Position`) directly into the
caller's dataframe object — there is no `.copy()` — and returns that same
object, so the value returned here is also the caller's frame after the
call. -/
def simple_sma_strategy (data : Frame) (fast slow : ℕ) : Frame :=
  let d1 := setCol data "SMA_Fast" (rollingMeanO (getCol data "Close") fast)
  let d2 := setCol d1 "SMA_Slow" (rollingMeanO (getCol d1 "Close") slow)
  let d3 := setCol d2 "Signal"
    (signalColO (getCol d2 "SMA_Fast") (getCol d2 "SMA_Slow")
      (List.length (getCol d2 "Close")) fast)
  let d4 := setCol d3 "Position" (diffO (getCol d3 "Signal"))
  d4

end SimpleMinuteBacktest

namespace SimpleBacktestNoPlot

open PandasFrame

/-- The dataframe-mutation shape of `sma_crossover_strategy` from
`simple_backtest_no_plot.py`: the body starts with `df = data.copy()`, a
fresh object holding an equal value, and every subsequent column
assignment (`SMA_Fast`, `SMA_Slow`, `Signal`, `Position`) targets `df`;
the caller's object `data` is never written.  The pair returned is
(the caller's frame object after the call, the local `df`). -/
def sma_crossover_strategy_frames (data : Frame) (fast slow : ℕ) :
    Frame × Frame :=
  let df := data
  let d1 := setCol df "SMA_Fast" (rollingMeanO (getCol df "price") fast)
  let d2 := setCol d1 "SMA_Slow" (rollingMeanO (getCol d1 "price") slow)
  let d3 := setCol d2 "Signal"
    (signalColO (getCol d2 "SMA_Fast") (getCol d2 "SMA_Slow")
      (List.length (getCol d2 "price")) fast)
  let d4 := setCol d3 "Position" (diffO (getCol d3 "Signal"))
  (data, d4)

/-- Account/trade-log invariant of the simulation loop: either the trade
log is balanced and nothing is held, or exactly one BUY is unmatched and
all cash is deployed. -/
def TradeInv (s : SimState) : Prop :=
  (numBuys s.trades = numSells s.trades ∧ s.btc_held = 0) ∨
  (numBuys s.trades = numSells s.trades + 1 ∧ s.cash = 0)

end SimpleBacktestNoPlot

namespace SimpleBacktestNoPlot

lemma getElem?_range_map {α : Type _} (f : ℕ → α) {n i : ℕ} (h : i < n) :
    ((List.range n).map f)[i]? = some (f i) := by
  simp [List.getElem?_map, List.getElem?_range h]

lemma sum_drop_take (xs : List ℚ) (a b : ℕ) (h : a + b ≤ xs.length) :
    ((xs.drop a).take b).sum = ∑ j ∈ Finset.range b, xs.getD (a + j) 0 := by
  induction b with
  | zero => simp
  | succ k ih =>
    have hk : a + k < xs.length := by omega
    have h1 : (List.drop a xs)[k]? = some (xs.getD (a + k) 0) := by
      rw [List.getElem?_drop, List.getD_eq_getElem?_getD, List.getElem?_eq_getElem hk]
      rfl
    rw [List.take_succ, List.sum_append, ih (by omega), Finset.sum_range_succ, h1]
    simp

lemma take_eq_take_of_le {α : Type _} {xs ys : List α} {n m : ℕ}
    (h : xs.take n = ys.take n) (hmn : m ≤ n) : xs.take m = ys.take m := by
  have h2 := congrArg (List.take m) h
  rwa [List.take_take, List.take_take, Nat.min_eq_left hmn] at h2

lemma smaAt_congr {xs ys : List ℚ} (p i : ℕ)
    (h : xs.take (i + 1) = ys.take (i + 1)) : smaAt xs p i = smaAt ys p i := by
  unfold smaAt
  rw [h]

lemma sigAt_congr {xs ys : List ℚ} (fast slow i : ℕ)
    (h : xs.take (i + 1) = ys.take (i + 1)) :
    sigAt xs fast slow i = sigAt ys fast slow i := by
  unfold sigAt
  rw [smaAt_congr fast i h, smaAt_congr slow i h]

lemma posAt_congr {xs ys : List ℚ} (fast slow i : ℕ)
    (h : xs.take (i + 1) = ys.take (i + 1)) :
    posAt xs fast slow i = posAt ys fast slow i := by
  unfold posAt
  rcases Nat.eq_zero_or_pos i with h0 | h0
  · simp [h0]
  · rw [sigAt_congr fast slow i h,
      sigAt_congr fast slow (i - 1) (take_eq_take_of_le h (by omega))]

lemma stepBar_buy (s : SimState) (bar : ℚ × Option ℤ)
    (h : bar.2 = some 1 ∧ 0 < s.cash) :
    stepBar s bar =
      { cash := 0
        btc_held := s.btc_held + s.cash / bar.1
        trades := s.trades ++ [⟨Side.buy, bar.1, s.cash / bar.1, 0⟩]
        portfolio_value :=
          s.portfolio_value ++ [0 + (s.btc_held + s.cash / bar.1) * bar.1] } := by
  unfold stepBar
  simp [h]

lemma stepBar_sell (s : SimState) (bar : ℚ × Option ℤ)
    (h1 : ¬(bar.2 = some 1 ∧ 0 < s.cash))
    (h2 : bar.2 = some (-1) ∧ 0 < s.btc_held) :
    stepBar s bar =
      { cash := s.cash + s.btc_held * bar.1
        btc_held := 0
        trades := s.trades ++
          [⟨Side.sell, bar.1, s.btc_held, s.cash + s.btc_held * bar.1⟩]
        portfolio_value :=
          s.portfolio_value ++ [s.cash + s.btc_held * bar.1 + 0 * bar.1] } := by
  unfold stepBar
  simp [h1, h2]

lemma stepBar_hold (s : SimState) (bar : ℚ × Option ℤ)
    (h1 : ¬(bar.2 = some 1 ∧ 0 < s.cash))
    (h2 : ¬(bar.2 = some (-1) ∧ 0 < s.btc_held)) :
    stepBar s bar =
      { s with portfolio_value :=
          s.portfolio_value ++ [s.cash + s.btc_held * bar.1] } := by
  unfold stepBar
  simp [h1, h2]

lemma stepBar_spec (s : SimState) (bar : ℚ × Option ℤ) :
    (stepBar s bar).cash = (coreStep s.cash s.btc_held bar).1 ∧
    (stepBar s bar).btc_held = (coreStep s.cash s.btc_held bar).2 ∧
    (stepBar s bar).portfolio_value =
      s.portfolio_value ++
        [(coreStep s.cash s.btc_held bar).1 +
          (coreStep s.cash s.btc_held bar).2 * bar.1] := by
  unfold coreStep
  by_cases h1 : bar.2 = some 1 ∧ 0 < s.cash
  · rw [stepBar_buy s bar h1]
    simp [h1]
  · by_cases h2 : bar.2 = some (-1) ∧ 0 < s.btc_held
    · rw [stepBar_sell s bar h1 h2]
      simp [h1, h2]
    · rw [stepBar_hold s bar h1 h2]
      simp [h1, h2]

lemma fold_portfolio_values (bars : List (ℚ × Option ℤ)) :
    ∀ s : SimState, (bars.foldl stepBar s).portfolio_value =
      s.portfolio_value ++ valuesFrom s.cash s.btc_held bars := by
  induction bars with
  | nil => intro s; simp [valuesFrom]
  | cons bar rest ih =>
    intro s
    obtain ⟨h1, h2, h3⟩ := stepBar_spec s bar
    rw [List.foldl_cons, ih, h1, h2, h3]
    simp [valuesFrom]

lemma valuesFrom_getElem?_take (bars : List (ℚ × Option ℤ)) :
    ∀ (c b : ℚ) (i : ℕ),
      (valuesFrom c b bars)[i]? = (valuesFrom c b (bars.take (i + 1)))[i]? := by
  induction bars with
  | nil => simp
  | cons bar rest ih =>
    intro c b i
    cases i with
    | zero => simp [valuesFrom]
    | succ j =>
      rw [List.take_succ_cons]
      simp only [valuesFrom, List.getElem?_cons_succ]
      exact ih _ _ j

lemma valuesFrom_length (bars : List (ℚ × Option ℤ)) :
    ∀ c b : ℚ, (valuesFrom c b bars).length = bars.length := by
  induction bars with
  | nil => simp [valuesFrom]
  | cons bar rest ih => intro c b; simp [valuesFrom, ih]

lemma positionList_length (prices : List ℚ) (fast slow : ℕ) :
    (positionList prices fast slow).length = prices.length := by
  simp [positionList]

lemma positionList_take_congr {xs ys : List ℚ} (fast slow i : ℕ)
    (hx : i < xs.length) (hy : i < ys.length)
    (h : xs.take (i + 1) = ys.take (i + 1)) :
    (positionList xs fast slow).take (i + 1) =
      (positionList ys fast slow).take (i + 1) := by
  unfold positionList
  rw [← List.map_take, ← List.map_take, List.take_range, List.take_range,
    Nat.min_eq_left (by omega), Nat.min_eq_left (by omega)]
  exact List.map_congr_left fun j hj =>
    posAt_congr fast slow j
      (take_eq_take_of_le h (by have := List.mem_range.mp hj; omega))

end SimpleBacktestNoPlot

namespace SimpleBacktestNoPlot

lemma nanGt_iff (x y : Option ℚ) :
    nanGt x y = true ↔ ∃ a b : ℚ, x = some a ∧ y = some b ∧ b < a := by
  cases x <;> cases y <;> simp [nanGt]

lemma sigAt_zero_or_one (prices : List ℚ) (fast slow i : ℕ) :
    sigAt prices fast slow i = 0 ∨ sigAt prices fast slow i = 1 := by
  rw [sigAt]
  by_cases h1 : i < fast
  · left
    rw [if_pos h1]
  · rw [if_neg h1]
    by_cases h2 : nanGt (smaAt prices fast i) (smaAt prices slow i)
    · right
      rw [if_pos h2]
    · left
      rw [if_neg h2]

/-- **C2** (confirmed).  SMA correctness: for every price series and every
period `p ≥ 1` the output of `calculate_sma` is aligned one-to-one with
the input bars; at index `i ≥ p-1` it is defined and equals the
arithmetic mean of the prices at indices `i-p+1 .. i`, and at `i < p-1`
it is undefined (NaN, not zero). -/
theorem claim2_sma_correct (prices : List ℚ) (p i : ℕ) (hp : 1 ≤ p)
    (hi : i < prices.length) :
    (calculate_sma prices p).length = prices.length ∧
    (p - 1 ≤ i →
      (calculate_sma prices p)[i]? =
        some (some ((∑ j ∈ Finset.Icc (i + 1 - p) i, prices.getD j 0) / (p : ℚ)))) ∧
    (i < p - 1 → (calculate_sma prices p)[i]? = some none) := by
  refine ⟨by simp [calculate_sma], ?_, ?_⟩
  · intro hpi
    have hple : p ≤ i + 1 := by omega
    rw [calculate_sma, getElem?_range_map _ hi, smaAt, if_pos hple]
    have e1 : i + 1 - (i + 1 - p) = p := by omega
    rw [List.drop_take, e1, sum_drop_take prices (i + 1 - p) p (by omega),
      ← Nat.Ico_succ_right, Finset.sum_Ico_eq_sum_range, e1]
  · intro hip
    rw [calculate_sma, getElem?_range_map _ hi, smaAt, if_neg (by omega)]

/-- Witness for C2 at `prices = [1,2,3]`, `p = 2`, `i = 1`: the SMA is
defined there and equals `(1+2)/2`. -/
theorem claim2_witness :
    1 ≤ 2 ∧
    (calculate_sma [1, 2, 3] 2)[1]? =
      some (some ((∑ j ∈ Finset.Icc (1 + 1 - 2) 1, ([1, 2, 3] : List ℚ).getD j 0) / (2 : ℚ))) :=
  ⟨by norm_num,
    (claim2_sma_correct [1, 2, 3] 2 1 (by norm_num) (by norm_num)).2.1 (by norm_num)⟩

/-- **C3** (confirmed).  Signal rule with strict tie-break: for a valid
configuration (`1 ≤ fast < slow`) and every index `i`, `Signal[i] = 1`
(Long) iff both SMAs are defined at `i` and the fast one is strictly
greater; in every other case (tie or an undefined SMA) the signal is `0`
(Flat), and `0`/`1` are the only values the signal takes. -/
theorem claim3_signal_rule (prices : List ℚ) (fast slow i : ℕ)
    (hf : 1 ≤ fast) (hfs : fast < slow) (hi : i < prices.length) :
    ((signalList prices fast slow)[i]? = some 1 ↔
      ∃ a b : ℚ, (calculate_sma prices fast)[i]? = some (some a) ∧
        (calculate_sma prices slow)[i]? = some (some b) ∧ b < a) ∧
    ((signalList prices fast slow)[i]? = some 0 ∨
      (signalList prices fast slow)[i]? = some 1) := by
  rw [signalList, calculate_sma, calculate_sma, getElem?_range_map _ hi,
    getElem?_range_map _ hi, getElem?_range_map _ hi]
  constructor
  · rw [sigAt]
    by_cases hif : i < fast
    · rw [if_pos hif]
      constructor
      · intro h0
        exact absurd (Option.some.inj h0) (by norm_num)
      · rintro ⟨a, b, -, hb, -⟩
        rw [smaAt, if_neg (by omega)] at hb
        exact absurd (Option.some.inj hb) (by simp)
    · rw [if_neg hif]
      by_cases hgt : nanGt (smaAt prices fast i) (smaAt prices slow i)
      · rw [if_pos hgt]
        obtain ⟨a, b, ha, hb, hab⟩ := (nanGt_iff _ _).mp hgt
        exact ⟨fun _ => ⟨a, b, by rw [ha], by rw [hb], hab⟩, fun _ => rfl⟩
      · rw [if_neg hgt]
        constructor
        · intro h0
          exact absurd (Option.some.inj h0) (by norm_num)
        · rintro ⟨a, b, ha, hb, hab⟩
          exact absurd ((nanGt_iff _ _).mpr
            ⟨a, b, Option.some.inj ha, Option.some.inj hb, hab⟩) hgt
  · rcases sigAt_zero_or_one prices fast slow i with hs | hs
    · left
      rw [hs]
    · right
      rw [hs]

/-- Witness for C3 at `prices = [1,2,3]`, `fast = 1`, `slow = 2`,
`i = 2`, where the signal is Long. -/
theorem claim3_witness :
    ((signalList [1, 2, 3] 1 2)[2]? = some 1 ↔
      ∃ a b : ℚ, (calculate_sma [1, 2, 3] 1)[2]? = some (some a) ∧
        (calculate_sma [1, 2, 3] 2)[2]? = some (some b) ∧ b < a) ∧
    ((signalList [1, 2, 3] 1 2)[2]? = some 0 ∨
      (signalList [1, 2, 3] 1 2)[2]? = some 1) :=
  claim3_signal_rule [1, 2, 3] 1 2 2 (by norm_num) (by norm_num) (by norm_num)

end SimpleBacktestNoPlot

namespace SimpleBacktestNoPlot

/-- **C4** (confirmed).  Position-change derivation: at every index
`i ≥ 1`, `Position[i] = 1` (Enter) exactly on a Flat-to-Long signal
transition, `Position[i] = -1` (Exit) exactly on a Long-to-Flat
transition, `Position[i] = 0` (no event) when the signal does not change;
`Position[0]` is NaN regardless of `Signal[0]`, so the simulator's
`Position == 1` / `Position == -1` guards never fire on bar 0 (no
phantom first-bar trade; the signal column is total, so the first bar
only establishes the baseline state). -/
theorem claim4_position_change (prices : List ℚ) (fast slow i : ℕ)
    (h0 : 0 < i) (hi : i < prices.length) :
    ((positionList prices fast slow)[i]? = some (some 1) ↔
      sigAt prices fast slow (i - 1) = 0 ∧ sigAt prices fast slow i = 1) ∧
    ((positionList prices fast slow)[i]? = some (some (-1)) ↔
      sigAt prices fast slow (i - 1) = 1 ∧ sigAt prices fast slow i = 0) ∧
    (sigAt prices fast slow (i - 1) = sigAt prices fast slow i →
      (positionList prices fast slow)[i]? = some (some 0)) ∧
    (positionList prices fast slow)[0]? = some none := by
  have hi0 : (0 : ℕ) < prices.length := by omega
  rw [positionList, getElem?_range_map _ hi, getElem?_range_map _ hi0]
  rw [posAt, if_neg (by omega : ¬ i = 0), posAt, if_pos rfl]
  refine ⟨?_, ?_, fun h => by rw [h, sub_self], rfl⟩ <;>
    rcases sigAt_zero_or_one prices fast slow i with hsi | hsi <;>
    rcases sigAt_zero_or_one prices fast slow (i - 1) with hsp | hsp <;>
    rw [hsi, hsp] <;> simp

/-- Witness for C4 at `prices = [1,2,4]`, `fast = 1`, `slow = 2`,
`i = 1`: the signal goes Flat to Long and `Position[1]` is an Enter. -/
theorem claim4_witness :
    ((positionList [1, 2, 4] 1 2)[1]? = some (some 1) ↔
      sigAt [1, 2, 4] 1 2 (1 - 1) = 0 ∧ sigAt [1, 2, 4] 1 2 1 = 1) ∧
    ((positionList [1, 2, 4] 1 2)[1]? = some (some (-1)) ↔
      sigAt [1, 2, 4] 1 2 (1 - 1) = 1 ∧ sigAt [1, 2, 4] 1 2 1 = 0) ∧
    (sigAt [1, 2, 4] 1 2 (1 - 1) = sigAt [1, 2, 4] 1 2 1 →
      (positionList [1, 2, 4] 1 2)[1]? = some (some 0)) ∧
    (positionList [1, 2, 4] 1 2)[0]? = some none :=
  claim4_position_change [1, 2, 4] 1 2 1 (by norm_num) (by norm_num)

/-- **C1** (confirmed).  Anti-lookahead, stated as a two-run property: if
two price series agree on bars `0 .. i`, then every per-bar output of the
pipeline at index `i` — both SMA columns, the Signal, the Position change
and the recorded portfolio value — is identical in the two runs,
regardless of how the bars after `i` differ. -/
theorem claim1_anti_lookahead (xs ys : List ℚ) (fast slow : ℕ) (init : ℚ)
    (i : ℕ) (h : xs.take (i + 1) = ys.take (i + 1))
    (hx : i < xs.length) (hy : i < ys.length) :
    (calculate_sma xs fast)[i]? = (calculate_sma ys fast)[i]? ∧
    (calculate_sma xs slow)[i]? = (calculate_sma ys slow)[i]? ∧
    (signalList xs fast slow)[i]? = (signalList ys fast slow)[i]? ∧
    (positionList xs fast slow)[i]? = (positionList ys fast slow)[i]? ∧
    (runSim xs fast slow init).portfolio_value[i]? =
      (runSim ys fast slow init).portfolio_value[i]? := by
  refine ⟨?_, ?_, ?_, ?_, ?_⟩
  · rw [calculate_sma, calculate_sma, getElem?_range_map _ hx,
      getElem?_range_map _ hy, smaAt_congr fast i h]
  · rw [calculate_sma, calculate_sma, getElem?_range_map _ hx,
      getElem?_range_map _ hy, smaAt_congr slow i h]
  · rw [signalList, signalList, getElem?_range_map _ hx,
      getElem?_range_map _ hy, sigAt_congr fast slow i h]
  · rw [positionList, positionList, getElem?_range_map _ hx,
      getElem?_range_map _ hy, posAt_congr fast slow i h]
  · rw [runSim, runSim, fold_portfolio_values, fold_portfolio_values]
    simp only [List.nil_append]
    have hbars : (xs.zip (positionList xs fast slow)).take (i + 1) =
        (ys.zip (positionList ys fast slow)).take (i + 1) := by
      rw [List.zip_eq_zipWith, List.zip_eq_zipWith, List.take_zipWith,
        List.take_zipWith, h, positionList_take_congr fast slow i hx hy h]
    rw [valuesFrom_getElem?_take, hbars, ← valuesFrom_getElem?_take]

/-- Witness for C1: the series `[1,2,3]` and `[1,2,7]` agree on bars
`0..1` and all pipeline outputs at index 1 coincide. -/
theorem claim1_witness :
    ([1, 2, 3] : List ℚ).take (1 + 1) = ([1, 2, 7] : List ℚ).take (1 + 1) ∧
    ((calculate_sma [1, 2, 3] 1)[1]? = (calculate_sma [1, 2, 7] 1)[1]? ∧
      (calculate_sma [1, 2, 3] 2)[1]? = (calculate_sma [1, 2, 7] 2)[1]? ∧
      (signalList [1, 2, 3] 1 2)[1]? = (signalList [1, 2, 7] 1 2)[1]? ∧
      (positionList [1, 2, 3] 1 2)[1]? = (positionList [1, 2, 7] 1 2)[1]? ∧
      (runSim [1, 2, 3] 1 2 10).portfolio_value[1]? =
        (runSim [1, 2, 7] 1 2 10).portfolio_value[1]?) :=
  ⟨by decide,
    claim1_anti_lookahead [1, 2, 3] [1, 2, 7] 1 2 10 1 (by decide)
      (by norm_num) (by norm_num)⟩

end SimpleBacktestNoPlot

namespace SimpleBacktestNoPlot

lemma runSim_124 : runSim [1, 2, 4] 1 2 10000 =
    ⟨0, 5000, [⟨Side.buy, 2, 5000, 0⟩], [10000, 10000, 20000]⟩ := by
  have hpos : positionList [1, 2, 4] 1 2 = [none, some 1, some 0] := by
    norm_num [positionList, posAt, sigAt, smaAt, nanGt, List.range_succ]
  rw [runSim, hpos]
  show List.foldl stepBar ⟨10000, 0, [], []⟩
    [(1, none), (2, some 1), (4, some 0)] = _
  rw [List.foldl_cons, stepBar_hold _ _ (by simp) (by simp)]
  rw [List.foldl_cons, stepBar_buy _ _ ⟨rfl, by norm_num⟩]
  rw [List.foldl_cons, stepBar_hold _ _ (by simp) (by simp)]
  rw [List.foldl_nil]
  norm_num

/-- **C5 counterexample** (claim corrected).  The claim asserts that a
Buy converts cash with the commission deducted, i.e. holdings become
`cash * (1 - commissionRate) / closePrice`.  Running the loop simulator
on prices `[1, 2, 4]` with `fast = 1`, `slow = 2` and initial capital
10000 executes one Buy at price 2 whose amount is `5000 = 10000 / 2`,
whereas the claimed formula with the repository's configured commission
rate (`COMMISSION = 0.001`) gives `4995`: no commission is deducted. -/
theorem claim5_counterexample :
    (runSim [1, 2, 4] 1 2 10000).trades = [⟨Side.buy, 2, 5000, 0⟩] ∧
    (10000 : ℚ) * (1 - Config.COMMISSION) / 2 ≠ 5000 := by
  constructor
  · rw [runSim_124]
  · norm_num [Config.COMMISSION]

/-- **C5 amended**.  Trade execution convention of the loop simulator,
with no commission anywhere: on `Position == 1` with `cash > 0`, all cash
converts at the closing price (`holdings += cash / closePrice`), cash
becomes exactly 0 and one Buy trade is emitted; on `Position == -1` with
`btc_held > 0`, all holdings convert at the closing price
(`cash += holdings * closePrice`), holdings become exactly 0 and one Sell
trade is emitted. -/
theorem claim5_no_commission_execution (s : SimState) (p : ℚ)
    (pos : Option ℤ) :
    (pos = some 1 → 0 < s.cash →
      stepBar s (p, pos) =
        { cash := 0
          btc_held := s.btc_held + s.cash / p
          trades := s.trades ++ [⟨Side.buy, p, s.cash / p, 0⟩]
          portfolio_value :=
            s.portfolio_value ++ [0 + (s.btc_held + s.cash / p) * p] }) ∧
    (pos = some (-1) → 0 < s.btc_held →
      stepBar s (p, pos) =
        { cash := s.cash + s.btc_held * p
          btc_held := 0
          trades := s.trades ++
            [⟨Side.sell, p, s.btc_held, s.cash + s.btc_held * p⟩]
          portfolio_value :=
            s.portfolio_value ++ [s.cash + s.btc_held * p + 0 * p] }) := by
  constructor
  · intro hpos hc
    exact stepBar_buy s (p, pos) ⟨hpos, hc⟩
  · intro hpos hb
    refine stepBar_sell s (p, pos) ?_ ⟨hpos, hb⟩
    rintro ⟨h1, -⟩
    rw [hpos] at h1
    exact absurd (Option.some.inj h1) (by norm_num)

/-- Witness for the amended C5 at the state `⟨10, 0, [], []⟩` and a Buy
event at price 2. -/
theorem claim5_witness :
    (some 1 = (some 1 : Option ℤ)) ∧ (0 : ℚ) < 10 ∧
    stepBar ⟨10, 0, [], []⟩ (2, some 1) =
      { cash := 0
        btc_held := (⟨10, 0, [], []⟩ : SimState).btc_held +
          (⟨10, 0, [], []⟩ : SimState).cash / 2
        trades := (⟨10, 0, [], []⟩ : SimState).trades ++
          [⟨Side.buy, 2, (⟨10, 0, [], []⟩ : SimState).cash / 2, 0⟩]
        portfolio_value := (⟨10, 0, [], []⟩ : SimState).portfolio_value ++
          [0 + ((⟨10, 0, [], []⟩ : SimState).btc_held +
            (⟨10, 0, [], []⟩ : SimState).cash / 2) * 2] } :=
  ⟨rfl, by norm_num,
    (claim5_no_commission_execution ⟨10, 0, [], []⟩ 2 (some 1)).1 rfl
      (by norm_num)⟩

lemma tradeInv_step (s : SimState) (bar : ℚ × Option ℤ) (h : TradeInv s) :
    TradeInv (stepBar s bar) := by
  by_cases h1 : bar.2 = some 1 ∧ 0 < s.cash
  · rw [stepBar_buy s bar h1]
    rcases h with ⟨hb, -⟩ | ⟨-, hcash⟩
    · right
      refine ⟨?_, rfl⟩
      unfold numBuys numSells at hb ⊢
      simp [List.countP_append, hb]
    · rw [hcash] at h1
      exact absurd h1.2 (lt_irrefl 0)
  · by_cases h2 : bar.2 = some (-1) ∧ 0 < s.btc_held
    · rw [stepBar_sell s bar h1 h2]
      rcases h with ⟨-, hbtc⟩ | ⟨hb, -⟩
      · rw [hbtc] at h2
        exact absurd h2.2 (lt_irrefl 0)
      · left
        refine ⟨?_, rfl⟩
        unfold numBuys numSells at hb ⊢
        simp [List.countP_append, hb]
    · rw [stepBar_hold s bar h1 h2]
      rcases h with ⟨hb, hbtc⟩ | ⟨hb, hcash⟩
      · exact Or.inl ⟨hb, hbtc⟩
      · exact Or.inr ⟨hb, hcash⟩

lemma tradeInv_fold (bars : List (ℚ × Option ℤ)) :
    ∀ s : SimState, TradeInv s → TradeInv (bars.foldl stepBar s) := by
  induction bars with
  | nil => exact fun s h => h
  | cons bar rest ih => exact fun s h => ih _ (tradeInv_step s bar h)

/-- **C6** (confirmed).  Trade-matching invariant: for every price
series and every parameter choice, at the end of the run the number of
executed Buy trades is at least the number of executed Sell trades and
exceeds it by at most one. -/
theorem claim6_trade_matching (prices : List ℚ) (fast slow : ℕ)
    (init : ℚ) :
    numSells (runSim prices fast slow init).trades ≤
      numBuys (runSim prices fast slow init).trades ∧
    numBuys (runSim prices fast slow init).trades ≤
      numSells (runSim prices fast slow init).trades + 1 := by
  have h := tradeInv_fold (prices.zip (positionList prices fast slow))
    ⟨init, 0, [], []⟩ (Or.inl ⟨rfl, rfl⟩)
  rw [runSim]
  rcases h with ⟨h1, -⟩ | ⟨h1, -⟩ <;> rw [h1] <;> omega

/-- **C10** (confirmed).  In the loop simulator every bar-step conserves
marked-to-market equity at the bar's own (positive) price: after a Buy,
holdings times price equals the cash spent, after a Sell the cash
received equals holdings times price, and the recorded portfolio value
at the bar equals `cash + btc_held * price` computed just before the
trade — no commission is ever deducted in this path. -/
theorem claim10_equity_conservation (s : SimState) (p : ℚ)
    (pos : Option ℤ) (hp : 0 < p) :
    (stepBar s (p, pos)).cash + (stepBar s (p, pos)).btc_held * p =
      s.cash + s.btc_held * p ∧
    (stepBar s (p, pos)).portfolio_value =
      s.portfolio_value ++ [s.cash + s.btc_held * p] := by
  obtain ⟨h1, h2, h3⟩ := stepBar_spec s (p, pos)
  have hcore : (coreStep s.cash s.btc_held (p, pos)).1 +
      (coreStep s.cash s.btc_held (p, pos)).2 * p =
      s.cash + s.btc_held * p := by
    unfold coreStep
    by_cases hb : (p, pos).2 = some 1 ∧ 0 < s.cash
    · rw [if_pos hb]
      field_simp
      ring
    · by_cases hs : (p, pos).2 = some (-1) ∧ 0 < s.btc_held
      · rw [if_neg hb, if_pos hs]
        ring
      · rw [if_neg hb, if_neg hs]
  exact ⟨by rw [h1, h2, hcore], by rw [h3, hcore]⟩

/-- Witness for C10 at the state `⟨10, 0, [], []⟩`, price 2 and a Buy
event: the recorded value equals the pre-trade value 10. -/
theorem claim10_witness :
    (0 : ℚ) < 2 ∧
    ((stepBar ⟨10, 0, [], []⟩ (2, some 1)).cash +
        (stepBar ⟨10, 0, [], []⟩ (2, some 1)).btc_held * 2 =
      (⟨10, 0, [], []⟩ : SimState).cash +
        (⟨10, 0, [], []⟩ : SimState).btc_held * 2 ∧
    (stepBar ⟨10, 0, [], []⟩ (2, some 1)).portfolio_value =
      (⟨10, 0, [], []⟩ : SimState).portfolio_value ++
        [(⟨10, 0, [], []⟩ : SimState).cash +
          (⟨10, 0, [], []⟩ : SimState).btc_held * 2]) :=
  ⟨by norm_num, claim10_equity_conservation ⟨10, 0, [], []⟩ 2 (some 1) (by norm_num)⟩

end SimpleBacktestNoPlot

namespace SimpleBacktestNoPlot

/-- **C7 counterexample** (claim corrected).  The claim asserts that the
reported total return equals `finalEquity / initialCash - 1` in every
backtest run.  In the loop-based simulator the run on `[1, 2, 4]` with
`fast = 1`, `slow = 2`, initial capital 10000 ends with final equity
20000, so `finalEquity / initialCash - 1 = 1`, but the reported
`total_return` is `100` (the value is scaled by 100 into a percentage). -/
theorem claim7_counterexample :
    (sma_crossover_strategy [1, 2, 4] 1 2 10000).total_return = 100 ∧
    (sma_crossover_strategy [1, 2, 4] 1 2 10000).final_value / 10000 - 1 ≠
      (sma_crossover_strategy [1, 2, 4] 1 2 10000).total_return := by
  have h : sma_crossover_strategy [1, 2, 4] 1 2 10000 =
      { final_value := 20000
        total_return := 100
        buy_and_hold_return := 300
        num_trades := 1 } := by
    simp only [sma_crossover_strategy, runSim_124]
    norm_num [List.getLastD]
  rw [h]
  norm_num

/-- **C7 amended**.  The vectorized backtest
(`run_backtest_with_sample.py`) reports
`total_return = finalEquity / initialCash - 1` as claimed, while the
loop-based simulator (`simple_backtest_no_plot.py`) reports that
quantity multiplied by 100 (a percentage). -/
theorem claim7_total_return_amended (prices : List ℚ) (fast slow : ℕ)
    (init : ℚ) (closes : List ℚ) (sig : List ℤ) :
    (sma_crossover_strategy prices fast slow init).total_return =
      ((runSim prices fast slow init).portfolio_value.getLastD 0 / init - 1) * 100 ∧
    RunBacktestWithSample.total_return closes sig init =
      (RunBacktestWithSample.finalEquity closes sig init).map
        (fun e => e / init - 1) :=
  ⟨rfl, rfl⟩

/-- **C8 counterexample** (claim corrected).  The claim asserts that an
invalid configuration is rejected before any bar is processed.  Running
the loop simulator on `[1, 2, 3]` with `slowPeriod = fastPeriod = 5`
(violating `slowPeriod > fastPeriod`) and `initial_capital = -100`
(violating `initialCash > 0`) is not rejected: all three bars are
processed and a full per-bar output is produced. -/
theorem claim8_counterexample :
    (runSim [1, 2, 3] 5 5 (-100)).portfolio_value.length = 3 ∧
    (sma_crossover_strategy [1, 2, 3] 5 5 (-100)).num_trades = 0 := by
  have hpos : positionList [1, 2, 3] 5 5 = [none, some 0, some 0] := by
    norm_num [positionList, posAt, sigAt, smaAt, nanGt, List.range_succ]
  have hrun : runSim [1, 2, 3] 5 5 (-100) =
      ⟨-100, 0, [], [-100, -100, -100]⟩ := by
    rw [runSim, hpos]
    show List.foldl stepBar ⟨-100, 0, [], []⟩
      [(1, none), (2, some 0), (3, some 0)] = _
    rw [List.foldl_cons, stepBar_hold _ _ (by simp) (by simp)]
    rw [List.foldl_cons, stepBar_hold _ _ (by norm_num) (by norm_num)]
    rw [List.foldl_cons, stepBar_hold _ _ (by norm_num) (by norm_num)]
    rw [List.foldl_nil]
    norm_num
  rw [hrun]
  simp [sma_crossover_strategy, hrun]

/-- **C8 amended**.  No parameter validation exists in the simulator:
for every pair of periods and every initial capital (including
`slowPeriod ≤ fastPeriod` and non-positive capital) the run is accepted
and processes every bar, emitting one portfolio value per bar. -/
theorem claim8_no_validation (prices : List ℚ) (fast slow : ℕ)
    (init : ℚ) :
    (runSim prices fast slow init).portfolio_value.length = prices.length := by
  rw [runSim, fold_portfolio_values]
  simp [valuesFrom_length, positionList_length]

end SimpleBacktestNoPlot


namespace PandasFrame

lemma getCol_setCol_eq (f : Frame) (n : String) (c : Col) :
    getCol (setCol f n c) n = c := by
  induction f with
  | nil => simp [getCol, setCol, List.lookup]
  | cons head tail ih =>
    obtain ⟨k, d⟩ := head
    by_cases hk : k = n
    · subst hk
      simp [getCol, setCol, List.lookup]
    · have hb : (n == k) = false := by simpa using Ne.symm hk
      simp only [setCol, if_neg hk, getCol, List.lookup, hb] at ih ⊢
      exact ih

lemma getCol_setCol_ne (f : Frame) (n : String) (c : Col) (m : String)
    (h : m ≠ n) : getCol (setCol f n c) m = getCol f m := by
  induction f with
  | nil =>
    have hb : (m == n) = false := by simpa using h
    simp [getCol, setCol, List.lookup, hb]
  | cons head tail ih =>
    obtain ⟨k, d⟩ := head
    by_cases hk : k = n
    · subst hk
      have hb : (m == k) = false := by simpa using h
      simp [getCol, setCol, List.lookup, hb]
    · by_cases hmk : m = k
      · subst hmk
        simp [getCol, setCol, List.lookup, hk]
      · have hb : (m == k) = false := by simpa using hmk
        simp only [setCol, if_neg hk, getCol, List.lookup, hb] at ih ⊢
        exact ih

lemma diffO_length (c : Col) : (diffO c).length = c.length := by
  simp [diffO]

lemma signalColO_length (a b : Col) (n fast : ℕ) :
    (signalColO a b n fast).length = n := by
  simp [signalColO]

lemma simple_sma_strategy_position_length (data : Frame) (fast slow : ℕ) :
    (getCol (SimpleMinuteBacktest.simple_sma_strategy data fast slow)
        "Position").length = (getCol data "Close").length := by
  simp only [SimpleMinuteBacktest.simple_sma_strategy]
  rw [getCol_setCol_eq, diffO_length, getCol_setCol_eq, signalColO_length,
    getCol_setCol_ne _ _ _ _ (by decide), getCol_setCol_ne _ _ _ _ (by decide)]

/-- **C9 counterexample** (claim corrected).  The claim asserts that all
derived columns and results are produced on separate output structures,
leaving the caller's series untouched.  The minute-level
`simple_sma_strategy` writes its derived columns into the caller's
dataframe in place (there is no `.copy()`): on a two-bar frame holding
only a `Close` column, the caller's frame after the call differs from the
frame passed in — it has gained a two-entry `Position` column. -/
theorem claim9_counterexample :
    SimpleMinuteBacktest.simple_sma_strategy [("Close", [some 1, some 2])] 1 2 ≠
      [("Close", [some 1, some 2])] := by
  intro hcontra
  have hlen := congrArg (fun f => (getCol f "Position").length) hcontra
  simp only at hlen
  rw [simple_sma_strategy_position_length] at hlen
  simp [getCol, List.lookup] at hlen

/-- **C9 amended**.  OHLCV immutability holds in both scripts as a frame
condition on the bar columns: `sma_crossover_strategy` in the no-plot
script operates on a `.copy()`, so the caller's frame object is entirely
unchanged; the minute-level `simple_sma_strategy` mutates the caller's
frame in place by adding the four derived columns `SMA_Fast`, `SMA_Slow`,
`Signal`, `Position`, but every other column — in particular the
timestamps and OHLCV data — is left identical. -/
theorem claim9_frame_amended (data : Frame) (fast slow : ℕ) (name : String)
    (h1 : name ≠ "SMA_Fast") (h2 : name ≠ "SMA_Slow")
    (h3 : name ≠ "Signal") (h4 : name ≠ "Position") :
    (SimpleBacktestNoPlot.sma_crossover_strategy_frames data fast slow).1 = data ∧
    getCol (SimpleMinuteBacktest.simple_sma_strategy data fast slow) name =
      getCol data name := by
  refine ⟨rfl, ?_⟩
  simp only [SimpleMinuteBacktest.simple_sma_strategy]
  rw [getCol_setCol_ne _ _ _ _ h4, getCol_setCol_ne _ _ _ _ h3,
    getCol_setCol_ne _ _ _ _ h2, getCol_setCol_ne _ _ _ _ h1]

/-- Witness for the amended C9 on a concrete two-bar frame and the
`Close` column. -/
theorem claim9_witness :
    "Close" ≠ "SMA_Fast" ∧
    ((SimpleBacktestNoPlot.sma_crossover_strategy_frames
        [("Close", [some 1, some 2])] 1 2).1 = [("Close", [some 1, some 2])] ∧
      getCol (SimpleMinuteBacktest.simple_sma_strategy
          [("Close", [some 1, some 2])] 1 2) "Close" =
        getCol [("Close", [some 1, some 2])] "Close") :=
  ⟨by decide,
    claim9_frame_amended [("Close", [some 1, some 2])] 1 2 "Close"
      (by decide) (by decide) (by decide) (by decide)⟩

end PandasFrame
